import Mathlib

/-!
Shallow embedding of `firmwares.py` (homie-monitor firmware scanner) and
verification of its specification claims.

Modelling conventions:
* Raw file bytes are `List Nat` (each element a byte value).
* The source is Python 2: `str` and `bytes` coincide, so the text patterns
  `REGEX_PYTHON_VERSION` / `REGEX_PYTHON_DESC` apply directly to archive member
  contents, and `bytes.decode()` is the default ASCII decode.
* `zipfile`, `json.loads`, `hashlib.md5` and the filesystem are external
  collaborators: the zip view of a file, the JSON parse function and the hash
  function are explicit parameters or fields of the directory-entry model.
* Python dict records become a structure with `Option` fields (`none` = key
  absent); a raised exception becomes an explicit error flag, and partial
  mutations made before the raise are kept, as in Python.
-/

namespace Homie

/-- One artifact record (the per-file dict built by `scan_firmwares`). -/
structure Rec where
  filename : Option String
  name : Option String
  version : Option String
  filename_version : Option String
  brand : Option String
  description : Option String
  type : Option String
  human_size : Option String
  checksum : Option String
deriving DecidableEq, Repr

/-- The freshly created empty record (`db[fw_file] = {}`). -/
def emptyRec : Rec := ⟨none, none, none, none, none, none, none, none, none⟩

/-- A zip archive as seen through `zipfile.ZipFile`: member name to member
content (Python 2 `str`). -/
def ZipArchive := List (String × String)

/-- Member lookup: `bundle.getinfo(n)` succeeds and `bundle.read(n)` returns
the content exactly when the member is present. -/
def zipMember (z : ZipArchive) (n : String) : Option String :=
  (List.find? (fun p => p.1 == n) z).map (fun p => p.2)

/-- A directory entry together with the filesystem facts the scanner can
observe about it.  `zipView = some z` models `zipfile.is_zipfile` returning
true with archive contents `z`; `none` models an invalid zip container.
`sidecar` is the content of the sibling `<base>.txt` file when it exists.
`md5Readable` models whether the file can still be opened when the checksum
is computed (it can have been deleted mid-scan). -/
structure DirEntry where
  name : String
  isFile : Bool
  content : List Nat
  size : Nat
  sidecar : Option String
  zipView : Option ZipArchive
  md5Readable : Bool

/-! ### Byte-level marker search

`REGEX_NAME` / `REGEX_VERSION` / `REGEX_BRAND` are the compiled patterns
`open (.+) close` over bytes.  `re.search` semantics: leftmost starting
offset wins; at a given offset the literal open marker must match, then the
greedy `(.+)` extends as far as possible without crossing a newline byte
(10) and backtracks to the last position where the close marker matches. -/

/-- Does `pat` occur in `l` starting at offset `i`? -/
def matchesAt (l pat : List Nat) (i : Nat) : Bool :=
  decide ((l.drop i).take pat.length = pat)

/-- Length of the newline-free run at the head of `l` (the furthest `.`
can reach). -/
def nlRun (l : List Nat) : Nat :=
  (l.takeWhile (fun b => b != 10)).length

/-- Greedy search for the close marker: the largest offset `e` with
`s < e`, `e` within the newline-free run starting at `s`, and the close
marker matching at `e`. -/
def greedyClose (close l : List Nat) (s : Nat) : Option Nat :=
  ((List.range (s + nlRun (l.drop s) + 1)).filter
    (fun e => decide (s < e) && matchesAt l close e)).getLast?

/-- Try the full pattern `open (.+) close` anchored at the head of `l`;
return the bytes captured by `(.+)` on success. -/
def headMatch (opn close l : List Nat) : Option (List Nat) :=
  if matchesAt l opn 0 then
    match greedyClose close l opn.length with
    | some e => some ((l.drop opn.length).take (e - opn.length))
    | none => none
  else none

/-- `re.search` for `open (.+) close`: try every offset left to right. -/
def pairSearch (opn close : List Nat) : List Nat → Option (List Nat)
  | [] =>
    headMatch opn close []
  | b :: t =>
    match headMatch opn close (b :: t) with
    | some r => some r
    | none => pairSearch opn close t

/-- Opening delimiter of `REGEX_NAME`. -/
def NAME_OPEN : List Nat := [0xbf, 0x84, 0xe4, 0x13, 0x54]
/-- Closing delimiter of `REGEX_NAME`. -/
def NAME_CLOSE : List Nat := [0x93, 0x44, 0x6b, 0xa7, 0x75]
/-- Opening delimiter of `REGEX_VERSION`. -/
def VERSION_OPEN : List Nat := [0x6a, 0x3f, 0x3e, 0x0e, 0xe1]
/-- Closing delimiter of `REGEX_VERSION`. -/
def VERSION_CLOSE : List Nat := [0xb0, 0x30, 0x48, 0xd4, 0x1a]
/-- Opening delimiter of `REGEX_BRAND`. -/
def BRAND_OPEN : List Nat := [0xfb, 0x2a, 0xf5, 0x68, 0xc0]
/-- Closing delimiter of `REGEX_BRAND`. -/
def BRAND_CLOSE : List Nat := [0x6e, 0x2f, 0x0f, 0xeb, 0x2d]

/-- Python 2 `str.decode()`: strict ASCII decoding; fails on any byte
at or above 128. -/
def asciiDecode (l : List Nat) : Option String :=
  if l.all (fun b => b < 128) then
    some (String.mk (l.map (fun b => Char.ofNat b)))
  else none

/-- Decode one searched field and store it with `set`; a decode failure is
an uncaught `UnicodeDecodeError` (error flag `true`).  An absent match
leaves the record untouched. -/
def applyField (res : Option (List Nat)) (set : Rec → String → Rec)
    (db : Rec) : Rec × Bool :=
  match res with
  | none => (db, false)
  | some bs =>
    match asciiDecode bs with
    | none => (db, true)
    | some s => (set db s, false)

/-- `scan_esp_firmware`: tag the record, search the three marker pairs in
the raw bytes, decode and store each captured span in order
name/version/brand, then read the sidecar description file if present.
The returned flag is `true` when an exception escaped (decode failure);
the record then holds the mutations made before the raise. -/
def scan_esp_firmware (e : DirEntry) (db : Rec) : Rec × Bool :=
  let db0 := { db with type := some "esp8266" }
  let nameRes := pairSearch NAME_OPEN NAME_CLOSE e.content
  let versionRes := pairSearch VERSION_OPEN VERSION_CLOSE e.content
  let brandRes := pairSearch BRAND_OPEN BRAND_CLOSE e.content
  match applyField nameRes (fun r s => { r with name := some s }) db0 with
  | (db1, true) => (db1, true)
  | (db1, false) =>
    match applyField versionRes (fun r s => { r with version := some s }) db1 with
    | (db2, true) => (db2, true)
    | (db2, false) =>
      match applyField brandRes (fun r s => { r with brand := some s }) db2 with
      | (db3, true) => (db3, true)
      | (db3, false) =>
        match e.sidecar with
        | some t => ({ db3 with description := some t }, false)
        | none => (db3, false)

/-! ### Bundle inspector

`REGEX_PYTHON_VERSION` and `REGEX_PYTHON_DESC` are text patterns applied
with `re.M`: `^` anchors a match at offset 0 or right after a newline, and
`re.search` returns the leftmost match. -/

/-- Try `^__version__ = ['"]([^'"]*)['"]` at the head of `cs`: the literal
prelude, an opening quote of either kind, a maximal run of non-quote
characters, then any closing quote (the character class excludes both
quote kinds, so the greedy run needs no backtracking). -/
def pyVersionAt (cs : List Char) : Option (List Char) :=
  if cs.take 14 = "__version__ = ".data then
    match cs.drop 14 with
    | [] => none
    | q :: rest =>
      if q == '\'' || q == '"' then
        let run := rest.takeWhile (fun c => !(c == '\'' || c == '"'))
        if rest.drop run.length = [] then none else some run
      else none
  else none

/-- Characters admitted inside the docstring capture: the source's class
`[^(?:\"\"\")]*` excludes exactly the characters `(`, `?`, `:`, `"`, `)`. -/
def descRunChar (c : Char) : Bool :=
  !(c == '(' || c == '?' || c == ':' || c == '"' || c == ')')

/-- Try `^\"\"\"([^(?:\"\"\")]*)\"\"\"` at the head of `cs`: three quotes,
a maximal run of admitted characters, then three quotes (the run cannot
contain a quote, so the greedy run needs no backtracking). -/
def pyDescAt (cs : List Char) : Option (List Char) :=
  if cs.take 3 = ['"', '"', '"'] then
    let run := (cs.drop 3).takeWhile descRunChar
    if ((cs.drop 3).drop run.length).take 3 = ['"', '"', '"'] then some run
    else none
  else none

/-- `re.search` with `re.M` for a `^`-anchored pattern: walk the text left
to right and try the head matcher at offset 0 and right after each
newline. -/
def mSearchAux (f : List Char → Option (List Char)) :
    List Char → Bool → Option (List Char)
  | [], atStart => if atStart then f [] else none
  | c :: t, atStart =>
    match (if atStart then f (c :: t) else none) with
    | some r => some r
    | none => mSearchAux f t (c == '\n')

/-- Leftmost multiline search for the `__version__` pattern. -/
def pyVersionSearch (cs : List Char) : Option (List Char) :=
  mSearchAux pyVersionAt cs true

/-- Leftmost multiline search for the docstring pattern. -/
def pyDescSearch (cs : List Char) : Option (List Char) :=
  mSearchAux pyDescAt cs true

/-- First probe of `scan_bundle_firmware`: if the `main.py` member exists,
extract version and description from it (each optional) and, the probe
having raised no exception, set the classification to `python`. -/
def mainPyProbe (z : ZipArchive) (db : Rec) : Rec :=
  match zipMember z "main.py" with
  | none => db
  | some m =>
    let db1 :=
      match pyVersionSearch m.data with
      | some v => { db with version := some (String.mk v) }
      | none => db
    let db2 :=
      match pyDescSearch m.data with
      | some d => { db1 with description := some (String.mk d) }
      | none => db1
    { db2 with type := some "python" }

/-- A parsed `package.json`: `json.loads` output restricted to the shape
the probe reads, a JSON object with text fields (key appearing once). -/
def manifestField (pkg : List (String × String)) (k : String) : Option String :=
  (List.find? (fun p => p.1 == k) pkg).map (fun p => p.2)

/-- Second probe of `scan_bundle_firmware`: if the `package.json` member
exists and parses, assign `description`, then `version`, then the
`javascript` classification; a missing key raises midway, keeping the
assignments already made (non-atomic application). -/
def packageJsonProbe (loads : String → Option (List (String × String)))
    (z : ZipArchive) (db : Rec) : Rec :=
  match zipMember z "package.json" with
  | none => db
  | some s =>
    match loads s with
    | none => db
    | some pkg =>
      match manifestField pkg "description" with
      | none => db
      | some d =>
        let db1 := { db with description := some d }
        match manifestField pkg "version" with
        | none => db1
        | some v => { db1 with version := some v, type := some "javascript" }

/-- `scan_bundle_firmware`: an invalid zip container extracts nothing;
otherwise run the `main.py` probe then the `package.json` probe. -/
def scan_bundle_firmware (loads : String → Option (List (String × String)))
    (e : DirEntry) (db : Rec) : Rec :=
  match e.zipView with
  | none => db
  | some z => packageJsonProbe loads z (mainPyProbe z db)

/-! ### Size formatter

`sizeof_fmt` works on Python floats; byte counts below `2 ^ 53` and their
successive quotients by 1024 are represented exactly, so the function is
embedded over `ℚ` with the exact `%3.1f` rounding (round half to even). -/

/-- Round half to even, the rounding used by `%` float formatting. -/
def rhe (x : ℚ) : ℤ :=
  let f := ⌊x⌋
  let r := x - f
  if r < 1 / 2 then f
  else if 1 / 2 < r then f + 1
  else if f % 2 = 0 then f else f + 1

/-- Decimal digits of a natural number, most significant first (the fuel
argument makes the recursion structural; `n + 1` suffices since a number
has at most `n + 1` digits). -/
def natDigits : Nat → Nat → List Char
  | 0, _ => []
  | fuel + 1, n =>
    if n < 10 then [Nat.digitChar n]
    else natDigits fuel (n / 10) ++ [Nat.digitChar (n % 10)]

/-- Decimal rendering of an integer, as `%d` prints it. -/
def intToStr (i : Int) : String :=
  match i with
  | Int.ofNat m => String.mk (natDigits (m + 1) m)
  | Int.negSucc m => "-" ++ String.mk (natDigits (m + 2) (m + 1))

/-- `"%3.1f" % q` for a non-negative value (the minimum width 3 never
forces padding there: the shortest output is `0.0`). -/
def fmtOneDec (q : ℚ) : String :=
  let n := rhe (q * 10)
  intToStr (n / 10) ++ "." ++ intToStr (n % 10)

/-- The unit ladder iterated by the loop. -/
def sizeofUnits : List String := ["", "K", "M", "G", "T", "P", "E", "Z"]

/-- The loop of `sizeof_fmt`: emit at the first unit where the magnitude
is below 1024, dividing by 1024 per step; falling off the ladder emits
`Y`. -/
def sizeof_fmt_aux (suffix : String) : List String → ℚ → String
  | [], num => fmtOneDec num ++ "Y" ++ suffix
  | u :: us, num =>
    if |num| < 1024 then fmtOneDec num ++ u ++ suffix
    else sizeof_fmt_aux suffix us (num / 1024)

/-- `sizeof_fmt(num, suffix="B")`. -/
def sizeof_fmt (num : ℚ) (suffix : String) : String :=
  sizeof_fmt_aux suffix sizeofUnits num

/-! ### Checksum service -/

/-- `file_md5`: opening and reading the file succeeds exactly when it is
still readable; the digest itself is the external `hashlib.md5` of the
content, passed in as `hash`.  Failure is an uncaught I/O error. -/
def file_md5 (hash : List Nat → String) (e : DirEntry) : Except Unit String :=
  if e.md5Readable then Except.ok (hash e.content) else Except.error ()

/-! ### Artifact classifier / scanner -/

/-- `os.path.splitext` on a plain file name: split at the last dot unless
every character before it is itself a dot. -/
def splitextChars (cs : List Char) : List Char × List Char :=
  match ((List.range cs.length).filter
      (fun i => cs.getD i ' ' == '.')).getLast? with
  | none => (cs, [])
  | some i =>
    if (cs.take i).all (fun c => c == '.') then (cs, [])
    else (cs.take i, cs.drop i)

/-- `\d+\.\d+\.\d+` anchored at the head of `cs`, each `\d+` a maximal
digit run (a shorter run would be followed by a digit, not by `.`, so
greedy matching needs no backtracking); returns the matched text. -/
def parseVer (cs : List Char) : Option (List Char) :=
  let d1 := cs.takeWhile Char.isDigit
  if d1.isEmpty then none
  else
    match cs.drop d1.length with
    | '.' :: r1 =>
      let d2 := r1.takeWhile Char.isDigit
      if d2.isEmpty then none
      else
        match r1.drop d2.length with
        | '.' :: r2 =>
          let d3 := r2.takeWhile Char.isDigit
          if d3.isEmpty then none
          else some (d1 ++ '.' :: (d2 ++ '.' :: d3))
        | _ => none
    | _ => none

/-- `re.search(r"(.*)\-(\d+\.\d+\.\d+)", base)`: any successful match
starts at offset 0 because the greedy `(.*)` absorbs every prefix, and
`(.*)` backtracks from the right, so group 1 ends at the last `-` that is
followed by a version number; group 2 is the version matched there. -/
def fwNameSearch (cs : List Char) : Option (List Char × List Char) :=
  match ((List.range cs.length).filter
      (fun k => cs.getD k ' ' == '-' && (parseVer (cs.drop (k + 1))).isSome)).getLast? with
  | none => none
  | some k =>
    match parseVer (cs.drop (k + 1)) with
    | some v => some (cs.take k, v)
    | none => none

/-- Dispatch through the `fw_types` table (the scanner guarantees the
extension is one of the two keys). -/
def dispatchExtract (loads : String → Option (List (String × String)))
    (e : DirEntry) (ext : List Char) (r : Rec) : Rec × Bool :=
  if ext = ".bin".data then scan_esp_firmware e r
  else (scan_bundle_firmware loads e r, false)

/-- The record as first created: `db[fw_file] = {}` followed by
`firmware_info["filename"] = fw_file`. -/
def initRec (n : String) : Rec :=
  { emptyRec with filename := some n }

/-- The per-entry body of the `scan_firmwares` loop.  `none`: the entry was
skipped before a record was created (not a regular file, unrecognized
extension, or no filename-convention match).  `some (r, err)`: the record
`r` was inserted into the output; `err` reports an exception raised while
completing it (decode failure in the extractor, or `file_md5` I/O error),
which aborts the whole scan with the partial `r` left in place. -/
def processEntry (loads : String → Option (List (String × String)))
    (hash : List Nat → String) (e : DirEntry) : Option (Rec × Bool) :=
  if e.isFile then
    let base := (splitextChars e.name.data).1
    let ext := (splitextChars e.name.data).2
    if ext = ".bin".data ∨ ext = ".zip".data then
      match fwNameSearch base with
      | none => none
      | some (g1, g2) =>
        match dispatchExtract loads e ext (initRec e.name) with
        | (r1, true) => some (r1, true)
        | (r1, false) =>
          let r2 := if r1.name.isSome then r1
                    else { r1 with name := some (String.mk g1) }
          let r3 := { r2 with filename_version := some (String.mk g2) }
          let r4 := { r3 with human_size := some (sizeof_fmt (e.size : ℚ) "B") }
          match file_md5 hash e with
          | Except.error _ => some (r4, true)
          | Except.ok c => some ({ r4 with checksum := some c }, false)
    else none
  else none

/-- One step of the scan fold; once an exception has escaped (`st.2`),
no further entry is processed. -/
def scanStep (loads : String → Option (List (String × String)))
    (hash : List Nat → String) (st : List (String × Rec) × Bool)
    (e : DirEntry) : List (String × Rec) × Bool :=
  if st.2 then st
  else
    match processEntry loads hash e with
    | none => st
    | some (r, err) => (st.1 ++ [(e.name, r)], err)

/-- `scan_firmwares(path, db)` starting from an empty output dict: the
records inserted (in directory-listing order) and whether the scan was
aborted by an uncaught exception. -/
def scan_firmwares (loads : String → Option (List (String × String)))
    (hash : List Nat → String) (entries : List DirEntry) :
    List (String × Rec) × Bool :=
  List.foldl (scanStep loads hash) ([], false) entries

/-- Lookup in the output mapping. -/
def dbFind (db : List (String × Rec)) (n : String) : Option Rec :=
  (List.find? (fun p => p.1 == n) db).map (fun p => p.2)

/-! ### Spec-side definitions (for refinement comparisons) -/

/-- Modelled from the spec's words: the base name matches the convention
`<name>-<major>.<minor>.<patch>` — the whole name decomposes as a name
part, a hyphen, and three dot-separated nonempty decimal digit sequences
reaching the end of the name.  (A full `\d+.\d+.\d+` decomposition of the
tail exists exactly when the maximal-run parse consumes the whole tail.) -/
def specConvention (cs : List Char) : Bool :=
  (List.range cs.length).any (fun k =>
    cs.getD k ' ' == '-' &&
    (match parseVer (cs.drop (k + 1)) with
     | some v => v.length == cs.length - (k + 1)
     | none => false))

/-- Does the value scaled by `k` ladder steps fall below 1024 in
magnitude? -/
def unitPred (num : ℚ) (k : ℕ) : Bool := decide (|num / 1024 ^ k| < 1024)

/-- The unit index the spec prescribes: the first `k ≤ 7` at which the
scaled value's absolute magnitude is below 1024, and the largest unit
(index 8, `Y`) when there is none. -/
def unitIndexSpec (num : ℚ) : ℕ :=
  ((List.range 8).find? (unitPred num)).getD 8

/-- The unit symbol at a ladder index. -/
def unitSymb (k : ℕ) : String := (sizeofUnits ++ ["Y"]).getD k "Y"

/-- The number of divisions the `sizeof_fmt` loop performs before
emitting, as a recursion mirroring the loop (proof device relating the
loop to `unitIndexSpec`). -/
def auxIdx : List String → ℚ → ℕ
  | [], _ => 0
  | _ :: us, num => if |num| < 1024 then 0 else auxIdx us (num / 1024) + 1

/-! ## Helper lemmas -/

theorem takeWhile_good_bad {p : Char → Bool} (good : List Char) (bad : Char)
    (r : List Char) (hg : ∀ c ∈ good, p c = true) (hb : p bad = false) :
    (good ++ bad :: r).takeWhile p = good := by
  induction good with
  | nil => simp [List.takeWhile_cons, hb]
  | cons c t ih =>
    have hc : p c = true := hg c (by simp)
    simp [List.takeWhile_cons, hc]
    exact ih (fun x hx => hg x (by simp [hx]))

/-- The version pattern finds `2.0.1` in the scenario's entry script, for
any continuation of the text: the docstring line cannot match it, and
line 2 matches with capture `2.0.1` before any line of `rest` is tried. -/
theorem pyVersionSearch_doc (rest : List Char) :
    pyVersionSearch ("\"\"\"CLI helper\"\"\"\n__version__ = \"2.0.1\"\n".data ++ rest)
      = some "2.0.1".data := by
  have h : ("\"\"\"CLI helper\"\"\"\n__version__ = \"2.0.1\"\n".data : List Char)
      = '"' :: '"' :: '"' :: 'C' :: 'L' :: 'I' :: ' ' :: 'h' :: 'e' :: 'l' :: 'p'
        :: 'e' :: 'r' :: '"' :: '"' :: '"' :: '\n' :: '_' :: '_' :: 'v' :: 'e'
        :: 'r' :: 's' :: 'i' :: 'o' :: 'n' :: '_' :: '_' :: ' ' :: '=' :: ' '
        :: '"' :: '2' :: '.' :: '0' :: '.' :: '1' :: '"' :: '\n' :: [] := by
    decide
  rw [h]
  simp only [List.cons_append, List.nil_append]
  simp +decide [pyVersionSearch, mSearchAux, pyVersionAt]

/-- The docstring pattern captures `CLI helper` at offset 0 of the
scenario's entry script, for any continuation of the text. -/
theorem pyDescSearch_doc (rest : List Char) :
    pyDescSearch ("\"\"\"CLI helper\"\"\"\n__version__ = \"2.0.1\"\n".data ++ rest)
      = some "CLI helper".data := by
  have h : ("\"\"\"CLI helper\"\"\"\n__version__ = \"2.0.1\"\n".data : List Char)
      = '"' :: '"' :: '"' :: 'C' :: 'L' :: 'I' :: ' ' :: 'h' :: 'e' :: 'l' :: 'p'
        :: 'e' :: 'r' :: '"' :: '"' :: '"' :: '\n' :: '_' :: '_' :: 'v' :: 'e'
        :: 'r' :: 's' :: 'i' :: 'o' :: 'n' :: '_' :: '_' :: ' ' :: '=' :: ' '
        :: '"' :: '2' :: '.' :: '0' :: '.' :: '1' :: '"' :: '\n' :: [] := by
    decide
  rw [h]
  simp only [List.cons_append, List.nil_append]
  simp +decide [pyDescSearch, mSearchAux, pyDescAt, descRunChar]

/-- Once the scan has aborted, the remaining entries leave the state
untouched. -/
theorem scan_foldl_aborted (loads : String → Option (List (String × String)))
    (hash : List Nat → String) (es : List DirEntry) (db : List (String × Rec)) :
    List.foldl (scanStep loads hash) (db, true) es = (db, true) := by
  induction es with
  | nil => rfl
  | cons e t ih => simpa [List.foldl_cons, scanStep] using ih

/-- Lookup distributes over appending one record. -/
theorem dbFind_append_single (db : List (String × Rec)) (m n : String) (r : Rec) :
    dbFind (db ++ [(m, r)]) n
      = (dbFind db n).or (if m = n then some r else none) := by
  simp only [dbFind, List.find?_append]
  cases h : List.find? (fun p => p.1 == n) db with
  | some p => simp [Option.none_or, h]
  | none =>
    simp only [h, Option.map_none', Option.none_or, List.find?_cons, List.find?_nil]
    by_cases hmn : m = n
    · have hb : (m == n) = true := beq_iff_eq.mpr hmn
      simp [hb, hmn]
    · have hb : (m == n) = false := beq_eq_false_iff_ne.mpr hmn
      simp [hb, hmn]

/-- Every key of the output mapping was inserted by some entry that got
past the gates (its `processEntry` created a record). -/
theorem keys_from_entries (loads : String → Option (List (String × String)))
    (hash : List Nat → String) :
    ∀ (es : List DirEntry) (st : List (String × Rec) × Bool) (n : String) (r : Rec),
      dbFind (List.foldl (scanStep loads hash) st es).1 n = some r →
      dbFind st.1 n = some r ∨
        ∃ e ∈ es, e.name = n ∧ ∃ b, processEntry loads hash e = some (r, b) := by
  intro es
  induction es with
  | nil => intro st n r h; exact Or.inl h
  | cons a t ih =>
    intro st n r h
    rw [List.foldl_cons] at h
    rcases ih (scanStep loads hash st a) n r h with h1 | ⟨e, he, hn, b, hb⟩
    · by_cases hab : st.2
      · rw [scanStep, if_pos hab] at h1; exact Or.inl h1
      · rw [scanStep, if_neg hab] at h1
        cases hpe : processEntry loads hash a with
        | none => rw [hpe] at h1; exact Or.inl h1
        | some p =>
          rw [hpe] at h1
          rw [dbFind_append_single] at h1
          cases hfind : dbFind st.1 n with
          | some r' =>
            rw [hfind] at h1
            exact Or.inl h1
          | none =>
            rw [hfind, Option.none_or] at h1
            by_cases hname : a.name = n
            · rw [if_pos hname] at h1
              refine Or.inr ⟨a, by simp, hname, p.2, ?_⟩
              rw [hpe]
              cases h1; rfl
            · rw [if_neg hname] at h1; cases h1
    · exact Or.inr ⟨e, by simp [he], hn, b, hb⟩

/-- If no entry carrying the name `n` creates a record, `n` never appears
in the output. -/
theorem no_record_for_name (loads : String → Option (List (String × String)))
    (hash : List Nat → String) :
    ∀ (es : List DirEntry) (st : List (String × Rec) × Bool) (n : String),
      (∀ e ∈ es, e.name = n → processEntry loads hash e = none) →
      dbFind st.1 n = none →
      dbFind (List.foldl (scanStep loads hash) st es).1 n = none := by
  intro es
  induction es with
  | nil => intro st n _ h0; exact h0
  | cons a t ih =>
    intro st n hgate h0
    rw [List.foldl_cons]
    refine ih (scanStep loads hash st a) n (fun e he hn => hgate e (by simp [he]) hn) ?_
    by_cases hab : st.2
    · rw [scanStep, if_pos hab]; exact h0
    · rw [scanStep, if_neg hab]
      cases hpe : processEntry loads hash a with
      | none => exact h0
      | some p =>
        rw [dbFind_append_single, h0, Option.none_or]
        by_cases hname : a.name = n
        · exact absurd (hgate a (by simp) hname) (by simp [hpe])
        · rw [if_neg hname]

/-- A record, once inserted, is never overwritten by later entries. -/
theorem dbFind_preserved (loads : String → Option (List (String × String)))
    (hash : List Nat → String) :
    ∀ (es : List DirEntry) (st : List (String × Rec) × Bool) (n : String) (r : Rec),
      dbFind st.1 n = some r →
      dbFind (List.foldl (scanStep loads hash) st es).1 n = some r := by
  intro es
  induction es with
  | nil => intro st n r h; exact h
  | cons a t ih =>
    intro st n r h
    rw [List.foldl_cons]
    refine ih (scanStep loads hash st a) n r ?_
    by_cases hab : st.2
    · rw [scanStep, if_pos hab]; exact h
    · rw [scanStep, if_neg hab]
      cases hpe : processEntry loads hash a with
      | none => exact h
      | some p => rw [dbFind_append_single, h]; rfl

/-- In a scan that ran to completion without an exception, the record
found under the name of a listed entry is exactly the record
`processEntry` builds for that entry. -/
theorem record_of_entry (loads : String → Option (List (String × String)))
    (hash : List Nat → String) :
    ∀ (es : List DirEntry) (st : List (String × Rec) × Bool) (e : DirEntry),
      (es.map (fun x => x.name)).Nodup → e ∈ es →
      dbFind st.1 e.name = none →
      (List.foldl (scanStep loads hash) st es).2 = false →
      dbFind (List.foldl (scanStep loads hash) st es).1 e.name
        = Option.map Prod.fst (processEntry loads hash e) := by
  intro es
  induction es with
  | nil => intro st e _ he; cases he
  | cons a t ih =>
    rintro ⟨db0, fl⟩ e hnd he h0 hok
    cases fl with
    | true =>
      rw [List.foldl_cons, scanStep, if_pos rfl, scan_foldl_aborted] at hok
      cases hok
    | false =>
      rw [List.map_cons, List.nodup_cons] at hnd
      rcases List.mem_cons.mp he with rfl | het
      · cases hpe : processEntry loads hash e with
        | none =>
          rw [List.foldl_cons, scanStep, if_neg (by simp), hpe, Option.map_none']
          refine no_record_for_name loads hash t (db0, false) e.name ?_ h0
          intro e' he' hn'
          exact absurd (hn' ▸ List.mem_map_of_mem (fun x => x.name) he') hnd.1
        | some p =>
          obtain ⟨r0, b⟩ := p
          rw [List.foldl_cons, scanStep, if_neg (by simp), hpe] at hok
          cases b with
          | true => rw [scan_foldl_aborted] at hok; cases hok
          | false =>
            rw [List.foldl_cons, scanStep, if_neg (by simp), hpe, Option.map_some']
            refine dbFind_preserved loads hash t _ e.name r0 ?_
            rw [dbFind_append_single, h0, Option.none_or, if_pos rfl]
      · rw [List.foldl_cons] at hok ⊢
        refine ih (scanStep loads hash (db0, false) a) e hnd.2 het ?_ hok
        rw [scanStep, if_neg (by simp)]
        cases hpe : processEntry loads hash a with
        | none => exact h0
        | some p =>
          rw [dbFind_append_single, h0, Option.none_or]
          have hane : a.name ≠ e.name := by
            intro hEq
            exact hnd.1 (hEq ▸ List.mem_map_of_mem (fun x => x.name) het)
          rw [if_neg hane]

/-- Inversion: an entry that created a record passed all three gates. -/
theorem processEntry_some_gates (loads : String → Option (List (String × String)))
    (hash : List Nat → String) (e : DirEntry) (p : Rec × Bool)
    (h : processEntry loads hash e = some p) :
    e.isFile = true ∧
    ((splitextChars e.name.data).2 = ".bin".data ∨
      (splitextChars e.name.data).2 = ".zip".data) ∧
    (fwNameSearch (splitextChars e.name.data).1).isSome = true := by
  rw [processEntry] at h
  by_cases hf : e.isFile
  · rw [if_pos hf] at h
    by_cases hext : (splitextChars e.name.data).2 = ".bin".data ∨
        (splitextChars e.name.data).2 = ".zip".data
    · rw [if_pos hext] at h
      cases hfw : fwNameSearch (splitextChars e.name.data).1 with
      | none => rw [hfw] at h; cases h
      | some g => exact ⟨by simpa using hf, hext, by simp [hfw]⟩
    · rw [if_neg hext] at h; cases h
  · rw [if_neg hf] at h; cases h

/-- An entry that passes all three gates always creates a record (every
branch past the gates returns one, aborted or not). -/
theorem processEntry_isSome_of_gates (loads : String → Option (List (String × String)))
    (hash : List Nat → String) (e : DirEntry)
    (hf : e.isFile = true)
    (hext : (splitextChars e.name.data).2 = ".bin".data ∨
      (splitextChars e.name.data).2 = ".zip".data)
    (hfw : (fwNameSearch (splitextChars e.name.data).1).isSome = true) :
    (processEntry loads hash e).isSome = true := by
  obtain ⟨g, hg⟩ := Option.isSome_iff_exists.mp hfw
  obtain ⟨g1, g2⟩ := g
  rw [processEntry, if_pos (by simp [hf]), if_pos hext]
  simp only [hg]
  cases hd : dispatchExtract loads e (splitextChars e.name.data).2 (initRec e.name) with
  | mk r1 b =>
    cases b with
    | true => simp
    | false => cases hm : file_md5 hash e <;> simp [hm]

/-- If any listed entry creates its record with the error flag, the whole
scan ends aborted. -/
theorem abort_entry_final (loads : String → Option (List (String × String)))
    (hash : List Nat → String) :
    ∀ (es : List DirEntry) (st : List (String × Rec) × Bool) (e : DirEntry) (r : Rec),
      e ∈ es → processEntry loads hash e = some (r, true) →
      (List.foldl (scanStep loads hash) st es).2 = true := by
  intro es
  induction es with
  | nil => intro st e r he; cases he
  | cons a t ih =>
    rintro ⟨db0, fl⟩ e r he hpe
    cases fl with
    | true => rw [List.foldl_cons, scanStep, if_pos rfl, scan_foldl_aborted]
    | false =>
      rcases List.mem_cons.mp he with rfl | het
      · rw [List.foldl_cons, scanStep, if_neg (by simp), hpe, scan_foldl_aborted]
      · rw [List.foldl_cons]
        exact ih (scanStep loads hash (db0, false) a) e r het hpe

/-- Inversion of a successfully completed entry: the record it inserted
carries the filename-convention version verbatim in `filename_version`,
and its `name` is the extractor's value when the extractor set one, else
the convention-captured base name. -/
theorem processEntry_ok_inv (loads : String → Option (List (String × String)))
    (hash : List Nat → String) (e : DirEntry) (r : Rec)
    (h : processEntry loads hash e = some (r, false)) :
    ∃ g1 g2 x,
      fwNameSearch (splitextChars e.name.data).1 = some (g1, g2) ∧
      dispatchExtract loads e (splitextChars e.name.data).2
        (initRec e.name) = (x, false) ∧
      r.filename_version = some (String.mk g2) ∧
      r.name = (if x.name.isSome then x.name else some (String.mk g1)) ∧
      r.human_size = some (sizeof_fmt (e.size : ℚ) "B") ∧
      r.checksum = some (hash e.content) := by
  rw [processEntry] at h
  by_cases hf : e.isFile
  · rw [if_pos hf] at h
    by_cases hext : (splitextChars e.name.data).2 = ".bin".data ∨
        (splitextChars e.name.data).2 = ".zip".data
    · rw [if_pos hext] at h
      cases hfw : fwNameSearch (splitextChars e.name.data).1 with
      | none => rw [hfw] at h; cases h
      | some g =>
        obtain ⟨g1, g2⟩ := g
        simp only [hfw] at h
        refine ⟨g1, g2, ?_⟩
        cases hd : dispatchExtract loads e (splitextChars e.name.data).2 (initRec e.name) with
        | mk x b =>
          simp only [hd] at h
          cases b with
          | true => simp at h
          | false =>
            cases hm : file_md5 hash e with
            | error u => simp only [hm] at h; simp at h
            | ok c =>
              have hc : c = hash e.content := by
                rw [file_md5] at hm
                by_cases hr : e.md5Readable
                · rw [if_pos hr] at hm; cases hm; rfl
                · rw [if_neg hr] at hm; cases hm
              simp only [hm] at h
              simp only [Option.some.injEq, Prod.mk.injEq] at h
              refine ⟨x, rfl, rfl, ?_, ?_, ?_, ?_⟩
              all_goals rw [← h.1]
              all_goals try (by_cases hx : x.name.isSome <;> simp [hx, hc])
    · rw [if_neg hext] at h; cases h
  · rw [if_neg hf] at h; cases h

/-- Computation of `processEntry` for a gated `.zip` entry that is not a
valid zip container: the bundle extractor contributes nothing, and the
rest of the loop body fills the filename-derived and stat-derived
fields. -/
theorem processEntry_invalid_zip (loads : String → Option (List (String × String)))
    (hash : List Nat → String) (e : DirEntry) (g1 g2 : List Char)
    (hf : e.isFile = true)
    (hext : (splitextChars e.name.data).2 = ".zip".data)
    (hfw : fwNameSearch (splitextChars e.name.data).1 = some (g1, g2))
    (hzip : e.zipView = none) :
    processEntry loads hash e = some
      (if e.md5Readable
       then (⟨some e.name, some (String.mk g1), none, some (String.mk g2), none, none,
          none, some (sizeof_fmt (e.size : ℚ) "B"), some (hash e.content)⟩, false)
       else (⟨some e.name, some (String.mk g1), none, some (String.mk g2), none, none,
          none, some (sizeof_fmt (e.size : ℚ) "B"), none⟩, true)) := by
  by_cases hr : e.md5Readable <;>
    simp +decide [processEntry, hf, hext, hfw, hzip, hr, dispatchExtract,
      scan_bundle_firmware, file_md5, initRec, emptyRec]

/-- A scan whose first entry raises while completing its record ends
immediately: the output holds only that entry's partial record and the
abort flag. -/
theorem scan_abort_after (loads : String → Option (List (String × String)))
    (hash : List Nat → String) (e : DirEntry) (rest : List DirEntry) (r : Rec)
    (hpe : processEntry loads hash e = some (r, true)) :
    (scan_firmwares loads hash (e :: rest)).1 = [(e.name, r)] ∧
    (scan_firmwares loads hash (e :: rest)).2 = true := by
  rw [scan_firmwares, List.foldl_cons, scanStep, if_neg (by simp), hpe,
    scan_foldl_aborted]
  exact ⟨rfl, rfl⟩

/-- A singleton output holds no other key. -/
theorem dbFind_single_ne (m n : String) (r : Rec) (h : n ≠ m) :
    dbFind [(m, r)] n = none := by
  have hb : (m == n) = false := beq_eq_false_iff_ne.mpr (fun hx => h hx.symm)
  simp [dbFind, hb]

/-! ### Size-formatter lemmas -/

theorem div_pow_succ (x : ℚ) (k : ℕ) :
    x / 1024 ^ (k + 1) = x / 1024 / 1024 ^ k := by
  rw [div_div, ← pow_succ']

theorem sizeof_fmt_aux_eq (suffix : String) :
    ∀ (us : List String) (num : ℚ),
      sizeof_fmt_aux suffix us num
        = fmtOneDec (num / 1024 ^ auxIdx us num)
            ++ us.getD (auxIdx us num) "Y" ++ suffix := by
  intro us
  induction us with
  | nil => intro num; simp [sizeof_fmt_aux, auxIdx]
  | cons u t ih =>
    intro num
    by_cases h : |num| < 1024
    · simp [sizeof_fmt_aux, auxIdx, h]
    · rw [sizeof_fmt_aux, if_neg h, ih (num / 1024)]
      have hidx : auxIdx (u :: t) num = auxIdx t (num / 1024) + 1 := by
        rw [auxIdx, if_neg h]
      rw [hidx, div_pow_succ, List.getD_cons_succ]

theorem auxIdx_eq_find (us : List String) :
    ∀ num : ℚ,
      auxIdx us num
        = ((List.range us.length).find? (unitPred num)).getD us.length := by
  induction us with
  | nil => intro num; rfl
  | cons u t ih =>
    intro num
    rw [List.length_cons, List.range_succ_eq_map, List.find?_cons]
    by_cases h : |num| < 1024
    · have hp : unitPred num 0 = true := by
        simp [unitPred, h]
      rw [auxIdx, if_pos h]
      simp only [hp]
      rfl
    · have hp : unitPred num 0 = false := by
        simp [unitPred, h]
      rw [auxIdx, if_neg h]
      simp only [hp]
      rw [List.find?_map]
      have hfun : (unitPred num ∘ Nat.succ) = unitPred (num / 1024) := by
        funext k
        simp only [Function.comp, unitPred]
        rw [← div_pow_succ]
      rw [hfun, ih (num / 1024)]
      cases hfind : (List.range t.length).find? (unitPred (num / 1024)) with
      | some k => simp [hfind]
      | none => simp [hfind]

theorem find_range_first :
    ∀ (m : ℕ) (p : ℕ → Bool) (k : ℕ), (List.range m).find? p = some k →
      p k = true ∧ ∀ j, j < k → p j = false := by
  intro m
  induction m with
  | zero => intro p k h; cases h
  | succ n ih =>
    intro p k h
    rw [List.range_succ_eq_map, List.find?_cons] at h
    by_cases h0 : p 0 = true
    · rw [h0] at h
      cases h
      exact ⟨h0, fun j hj => absurd hj (by omega)⟩
    · rw [Bool.not_eq_true] at h0
      rw [h0, List.find?_map] at h
      cases hfind : (List.range n).find? (p ∘ Nat.succ) with
      | none => rw [hfind] at h; cases h
      | some k' =>
        rw [hfind] at h
        simp only [Option.map_some'] at h
        injection h with h
        subst h
        obtain ⟨hk', hlt⟩ := ih (p ∘ Nat.succ) k' hfind
        refine ⟨hk', fun j hj => ?_⟩
        cases j with
        | zero => exact h0
        | succ j' => exact hlt j' (by omega)

theorem find_range_none :
    ∀ (m : ℕ) (p : ℕ → Bool), (List.range m).find? p = none →
      ∀ j, j < m → p j = false := by
  intro m
  induction m with
  | zero => intro p _ j hj; omega
  | succ n ih =>
    intro p h j hj
    rw [List.range_succ_eq_map, List.find?_cons] at h
    by_cases h0 : p 0 = true
    · rw [h0] at h; cases h
    · rw [Bool.not_eq_true] at h0
      rw [h0, List.find?_map] at h
      cases hfind : (List.range n).find? (p ∘ Nat.succ) with
      | some k' => rw [hfind] at h; cases h
      | none =>
        cases j with
        | zero => exact h0
        | succ j' => exact ih (p ∘ Nat.succ) hfind j' (by omega)

theorem unitSymb_mem (k : ℕ) :
    unitSymb k ∈ ["", "K", "M", "G", "T", "P", "E", "Z", "Y"] := by
  by_cases h : k < 9
  · interval_cases k <;> decide
  · rw [unitSymb, List.getD_eq_default]
    · decide
    · simp [sizeofUnits]
      omega

/-- Bridging the in-range ladder lookup and `unitSymb` (they agree: index
8 reads the appended `Y` on one side and the default on the other). -/
theorem getD_units_eq (k : ℕ) : sizeofUnits.getD k "Y" = unitSymb k := by
  by_cases h : k < 9
  · interval_cases k <;> decide
  · rw [unitSymb,
      List.getD_eq_default _ _ (show sizeofUnits.length ≤ k by simp [sizeofUnits]; omega),
      List.getD_eq_default _ _ (show (sizeofUnits ++ ["Y"]).length ≤ k by simp [sizeofUnits]; omega)]

/-! ### Marker-search lemmas -/

theorem matchesAt_shift (a b pat : List Nat) (i : Nat) :
    matchesAt (a ++ b) pat (a.length + i) = matchesAt b pat i := by
  unfold matchesAt
  have h : (a ++ b).drop (a.length + i) = b.drop i := by
    rw [← List.drop_drop, List.drop_left]
  rw [h]

theorem matchesAt_here (pat rest : List Nat) :
    matchesAt (pat ++ rest) pat 0 = true := by
  unfold matchesAt
  simp [List.take_left]

theorem matchesAt_oob (l pat : List Nat) (i : Nat) (hp : pat ≠ [])
    (hi : l.length ≤ i) : matchesAt l pat i = false := by
  unfold matchesAt
  rw [List.drop_eq_nil_of_le hi]
  simp [Ne.symm hp]

theorem takeWhile_append_all {p : Nat → Bool} (a b : List Nat)
    (ha : ∀ x ∈ a, p x = true) :
    (a ++ b).takeWhile p = a ++ b.takeWhile p := by
  induction a with
  | nil => simp
  | cons c t ih =>
    have hc : p c = true := ha c (by simp)
    simp only [List.cons_append, List.takeWhile_cons, hc, if_true]
    rw [ih (fun x hx => ha x (by simp [hx]))]

theorem getLast?_all_eq {l : List Nat} {a : Nat} (hne : l ≠ [])
    (hall : ∀ x ∈ l, x = a) : l.getLast? = some a := by
  induction l with
  | nil => cases hne rfl
  | cons c t ih =>
    cases t with
    | nil => simp [hall c (by simp)]
    | cons d t' =>
      rw [List.getLast?_cons_cons]
      exact ih (by simp) (fun x hx => hall x (by simp [hx]))

theorem greedyClose_decomp (opn close sp q : List Nat)
    (hclose : close ≠ []) (hsp : sp ≠ [])
    (hsp10 : ∀ b ∈ sp, (b != 10) = true)
    (hnc : ∀ i, matchesAt (opn ++ (sp ++ (close ++ q))) close i = true →
      i = opn.length + sp.length) :
    greedyClose close (opn ++ (sp ++ (close ++ q))) opn.length
      = some (opn.length + sp.length) := by
  have hdrop : (opn ++ (sp ++ (close ++ q))).drop opn.length = sp ++ (close ++ q) :=
    List.drop_left opn _
  have hnl : sp.length ≤ nlRun ((opn ++ (sp ++ (close ++ q))).drop opn.length) := by
    rw [hdrop]
    unfold nlRun
    rw [takeWhile_append_all sp (close ++ q) hsp10]
    simp
  have hmatch : matchesAt (opn ++ (sp ++ (close ++ q))) close
      (opn.length + sp.length) = true := by
    have h1 : opn ++ (sp ++ (close ++ q)) = (opn ++ sp) ++ (close ++ q) := by
      simp [List.append_assoc]
    have h2 : opn.length + sp.length = (opn ++ sp).length + 0 := by
      simp [List.length_append]
    rw [h1, h2, matchesAt_shift]
    exact matchesAt_here close q
  have hlt : opn.length < opn.length + sp.length := by
    have := List.length_pos.mpr hsp
    omega
  unfold greedyClose
  apply getLast?_all_eq
  · intro hempty
    have hmem : opn.length + sp.length ∈
        (List.range (opn.length + nlRun ((opn ++ (sp ++ (close ++ q))).drop opn.length) + 1)).filter
          (fun e => decide (opn.length < e) && matchesAt (opn ++ (sp ++ (close ++ q))) close e) := by
      rw [List.mem_filter]
      refine ⟨List.mem_range.mpr (by omega), ?_⟩
      simp [hlt, hmatch]
    rw [hempty] at hmem
    cases hmem
  · intro x hx
    rw [List.mem_filter] at hx
    have := hx.2
    rw [Bool.and_eq_true] at this
    exact hnc x this.2

theorem headMatch_none (opn close l : List Nat)
    (h : matchesAt l opn 0 = false) : headMatch opn close l = none := by
  unfold headMatch
  rw [h]
  rfl

theorem headMatch_decomp (opn close sp q : List Nat)
    (hclose : close ≠ []) (hsp : sp ≠ [])
    (hsp10 : ∀ b ∈ sp, (b != 10) = true)
    (hnc : ∀ i, matchesAt (opn ++ (sp ++ (close ++ q))) close i = true →
      i = opn.length + sp.length) :
    headMatch opn close (opn ++ (sp ++ (close ++ q))) = some sp := by
  unfold headMatch
  rw [if_pos (matchesAt_here opn _), greedyClose_decomp opn close sp q hclose hsp hsp10 hnc]
  simp only [List.drop_left]
  have h : opn.length + sp.length - opn.length = sp.length := by omega
  rw [h, List.take_left' rfl]

theorem pairSearch_skip (opn close : List Nat) :
    ∀ (p l : List Nat),
      (∀ i, i < p.length → matchesAt (p ++ l) opn i = false) →
      pairSearch opn close (p ++ l) = pairSearch opn close l := by
  intro p
  induction p with
  | nil => intro l _; rfl
  | cons c t ih =>
    intro l hno
    have h0 : matchesAt (c :: (t ++ l)) opn 0 = false := by
      simpa using hno 0 (by simp)
    rw [List.cons_append, pairSearch, headMatch_none opn close _ h0]
    show pairSearch opn close (t ++ l) = pairSearch opn close l
    refine ih l (fun i hi => ?_)
    have hs := matchesAt_shift [c] (t ++ l) opn i
    rw [List.singleton_append, List.length_singleton, Nat.add_comm] at hs
    have h1 := hno (i + 1) (by simpa using Nat.succ_lt_succ hi)
    rw [List.cons_append] at h1
    rw [← hs]
    exact h1

theorem pairSearch_unfold_ne (opn close l : List Nat) (h : l ≠ []) :
    pairSearch opn close l
      = match headMatch opn close l with
        | some r => some r
        | none => pairSearch opn close l.tail := by
  cases l with
  | nil => cases h rfl
  | cons b t => rfl

theorem pairSearch_decomp (opn close p sp q : List Nat)
    (hopn : opn ≠ []) (hclose : close ≠ []) (hsp : sp ≠ [])
    (hsp10 : ∀ b ∈ sp, (b != 10) = true)
    (hno : ∀ i, i < p.length →
      matchesAt (p ++ (opn ++ (sp ++ (close ++ q)))) opn i = false)
    (hnc : ∀ i, i < (p ++ (opn ++ (sp ++ (close ++ q)))).length →
      matchesAt (p ++ (opn ++ (sp ++ (close ++ q)))) close i = true →
      i = p.length + (opn.length + sp.length)) :
    pairSearch opn close (p ++ (opn ++ (sp ++ (close ++ q)))) = some sp := by
  rw [pairSearch_skip opn close p _ hno]
  have hnc' : ∀ i, matchesAt (opn ++ (sp ++ (close ++ q))) close i = true →
      i = opn.length + sp.length := by
    intro i hi
    have hb : i < (opn ++ (sp ++ (close ++ q))).length := by
      by_contra hge
      rw [matchesAt_oob _ _ _ hclose (by omega)] at hi
      cases hi
    have h2 := hnc (p.length + i)
      (by rw [List.length_append]; omega)
      (by rw [matchesAt_shift]; exact hi)
    omega
  rw [pairSearch_unfold_ne _ _ _ (fun hx => hopn (List.append_eq_nil.mp hx).1)]
  rw [headMatch_decomp opn close sp q hclose hsp hsp10 hnc']

/-- `scan_esp_firmware` evaluated when all three searches hit decodable
spans. -/
theorem scan_esp_all (e : DirEntry) (db : Rec) (sn sv sb : List Nat)
    (s1 s2 s3 : String)
    (h1 : pairSearch NAME_OPEN NAME_CLOSE e.content = some sn)
    (h2 : pairSearch VERSION_OPEN VERSION_CLOSE e.content = some sv)
    (h3 : pairSearch BRAND_OPEN BRAND_CLOSE e.content = some sb)
    (d1 : asciiDecode sn = some s1)
    (d2 : asciiDecode sv = some s2)
    (d3 : asciiDecode sb = some s3) :
    (scan_esp_firmware e db).2 = false ∧
    (scan_esp_firmware e db).1.name = some s1 ∧
    (scan_esp_firmware e db).1.version = some s2 ∧
    (scan_esp_firmware e db).1.brand = some s3 := by
  simp only [scan_esp_firmware, h1, h2, h3, applyField, d1, d2, d3]
  cases e.sidecar <;> simp

/-- `scan_esp_firmware` evaluated when only the version search hits. -/
theorem scan_esp_version_only (e : DirEntry) (db : Rec) (sv : List Nat)
    (s2 : String)
    (h1 : pairSearch NAME_OPEN NAME_CLOSE e.content = none)
    (h2 : pairSearch VERSION_OPEN VERSION_CLOSE e.content = some sv)
    (h3 : pairSearch BRAND_OPEN BRAND_CLOSE e.content = none)
    (d2 : asciiDecode sv = some s2) :
    (scan_esp_firmware e db).2 = false ∧
    (scan_esp_firmware e db).1.version = some s2 ∧
    (scan_esp_firmware e db).1.name = db.name ∧
    (scan_esp_firmware e db).1.brand = db.brand := by
  simp only [scan_esp_firmware, h1, h2, h3, applyField, d2]
  cases e.sidecar <;> simp

/-! ## Claims -/

/-- C1: a valid zip whose `main.py` starts with the docstring
`\"\"\"CLI helper\"\"\"` followed by the line `__version__ = "2.0.1"` and has
no `package.json` member gets `version = 2.0.1`, `description = CLI helper`
and type `python`; and whenever a valid zip has a `main.py` member, the
`main.py` probe sets the `python` tag regardless of pattern matches. -/
theorem scan_bundle_python_claim
    (loads : String → Option (List (String × String))) (e : DirEntry)
    (z : ZipArchive) (rest : List Char) (db : Rec)
    (hz : e.zipView = some z)
    (hm : zipMember z "main.py"
      = some (String.mk ("\"\"\"CLI helper\"\"\"\n__version__ = \"2.0.1\"\n".data ++ rest)))
    (hp : zipMember z "package.json" = none) :
    ((scan_bundle_firmware loads e db).version = some "2.0.1" ∧
     (scan_bundle_firmware loads e db).description = some "CLI helper" ∧
     (scan_bundle_firmware loads e db).type = some "python") ∧
    (∀ (z' : ZipArchive) (m : String) (db' : Rec),
      zipMember z' "main.py" = some m → (mainPyProbe z' db').type = some "python") := by
  constructor
  · simp only [scan_bundle_firmware, hz, packageJsonProbe, hp, mainPyProbe, hm,
      pyVersionSearch_doc, pyDescSearch_doc]
    refine ⟨?_, ?_, ?_⟩ <;> first | rfl | trivial
  · intro z' m db' hm'
    simp only [mainPyProbe, hm']

/-- C1 witness: the scenario archive, concretely. -/
theorem scan_bundle_python_claim_witness :
    ((scan_bundle_firmware (fun _ => none)
        ⟨"tool-2.0.0.zip", true, [], 9, none,
          some [("main.py", "\"\"\"CLI helper\"\"\"\n__version__ = \"2.0.1\"\n")], true⟩
        emptyRec).version = some "2.0.1" ∧
     (scan_bundle_firmware (fun _ => none)
        ⟨"tool-2.0.0.zip", true, [], 9, none,
          some [("main.py", "\"\"\"CLI helper\"\"\"\n__version__ = \"2.0.1\"\n")], true⟩
        emptyRec).description = some "CLI helper" ∧
     (scan_bundle_firmware (fun _ => none)
        ⟨"tool-2.0.0.zip", true, [], 9, none,
          some [("main.py", "\"\"\"CLI helper\"\"\"\n__version__ = \"2.0.1\"\n")], true⟩
        emptyRec).type = some "python") ∧
    (mainPyProbe [("main.py", "x")] emptyRec).type = some "python" := by
  have h := scan_bundle_python_claim (fun _ => none)
    ⟨"tool-2.0.0.zip", true, [], 9, none,
      some [("main.py", "\"\"\"CLI helper\"\"\"\n__version__ = \"2.0.1\"\n")], true⟩
    [("main.py", "\"\"\"CLI helper\"\"\"\n__version__ = \"2.0.1\"\n")] [] emptyRec
    rfl (by decide) rfl
  exact ⟨h.1, h.2 [("main.py", "x")] "x" emptyRec rfl⟩

/-- C2: a valid zip with both a `main.py` declaring a `__version__` and a
parsing `package.json` carrying `version` and `description` ends with the
manifest's values and the `javascript` tag — the manifest probe runs second
and overwrites the script probe. -/
theorem scan_bundle_override_claim
    (loads : String → Option (List (String × String))) (e : DirEntry)
    (z : ZipArchive) (m j : String) (pkg : List (String × String))
    (v0 : List Char) (vv dd : String) (db : Rec)
    (hz : e.zipView = some z)
    (hm : zipMember z "main.py" = some m)
    (hv0 : pyVersionSearch m.data = some v0)
    (hj : zipMember z "package.json" = some j)
    (hload : loads j = some pkg)
    (hvv : manifestField pkg "version" = some vv)
    (hdd : manifestField pkg "description" = some dd) :
    (scan_bundle_firmware loads e db).version = some vv ∧
    (scan_bundle_firmware loads e db).description = some dd ∧
    (scan_bundle_firmware loads e db).type = some "javascript" := by
  simp only [scan_bundle_firmware, hz, packageJsonProbe, hj, hload, hdd, hvv]
  refine ⟨?_, ?_, ?_⟩ <;> first | rfl | trivial

/-- C2 witness: script version `2.0.1`, manifest version `3.0.0` and
description `pkg`. -/
theorem scan_bundle_override_claim_witness :
    (scan_bundle_firmware
        (fun s => if s = "J" then some [("version", "3.0.0"), ("description", "pkg")] else none)
        ⟨"tool-2.0.0.zip", true, [], 9, none,
          some [("main.py", "__version__ = \"2.0.1\"\n"), ("package.json", "J")], true⟩
        emptyRec).version = some "3.0.0" ∧
    (scan_bundle_firmware
        (fun s => if s = "J" then some [("version", "3.0.0"), ("description", "pkg")] else none)
        ⟨"tool-2.0.0.zip", true, [], 9, none,
          some [("main.py", "__version__ = \"2.0.1\"\n"), ("package.json", "J")], true⟩
        emptyRec).description = some "pkg" ∧
    (scan_bundle_firmware
        (fun s => if s = "J" then some [("version", "3.0.0"), ("description", "pkg")] else none)
        ⟨"tool-2.0.0.zip", true, [], 9, none,
          some [("main.py", "__version__ = \"2.0.1\"\n"), ("package.json", "J")], true⟩
        emptyRec).type = some "javascript" :=
  scan_bundle_override_claim
    (fun s => if s = "J" then some [("version", "3.0.0"), ("description", "pkg")] else none)
    ⟨"tool-2.0.0.zip", true, [], 9, none,
      some [("main.py", "__version__ = \"2.0.1\"\n"), ("package.json", "J")], true⟩
    [("main.py", "__version__ = \"2.0.1\"\n"), ("package.json", "J")]
    "__version__ = \"2.0.1\"\n" "J" [("version", "3.0.0"), ("description", "pkg")]
    "2.0.1".data "3.0.0" "pkg" emptyRec
    rfl rfl (by decide) rfl rfl rfl rfl

/-- C10: a valid zip with no `main.py` and a `package.json` that parses
but lacks the `version` key while carrying `description`: the manifest
probe applies non-atomically — `description` is assigned, then the
`version` lookup raises, so `version` and `type` are left exactly as they
were (unset for the scanner's fresh record). -/
theorem package_json_non_atomic_claim
    (loads : String → Option (List (String × String))) (e : DirEntry)
    (z : ZipArchive) (j : String) (pkg : List (String × String))
    (dd : String) (db : Rec)
    (hz : e.zipView = some z)
    (hnm : zipMember z "main.py" = none)
    (hj : zipMember z "package.json" = some j)
    (hload : loads j = some pkg)
    (hnv : manifestField pkg "version" = none)
    (hdd : manifestField pkg "description" = some dd) :
    (scan_bundle_firmware loads e db).description = some dd ∧
    (scan_bundle_firmware loads e db).version = db.version ∧
    (scan_bundle_firmware loads e db).type = db.type := by
  simp only [scan_bundle_firmware, hz, mainPyProbe, hnm, packageJsonProbe, hj, hload,
    hdd, hnv]
  refine ⟨?_, ?_, ?_⟩ <;> first | rfl | trivial

/-- C10 witness: a manifest with only a description. -/
theorem package_json_non_atomic_claim_witness :
    (scan_bundle_firmware (fun s => if s = "J" then some [("description", "pkg")] else none)
        ⟨"tool-2.0.0.zip", true, [], 9, none, some [("package.json", "J")], true⟩
        emptyRec).description = some "pkg" ∧
    (scan_bundle_firmware (fun s => if s = "J" then some [("description", "pkg")] else none)
        ⟨"tool-2.0.0.zip", true, [], 9, none, some [("package.json", "J")], true⟩
        emptyRec).version = none ∧
    (scan_bundle_firmware (fun s => if s = "J" then some [("description", "pkg")] else none)
        ⟨"tool-2.0.0.zip", true, [], 9, none, some [("package.json", "J")], true⟩
        emptyRec).type = none :=
  package_json_non_atomic_claim
    (fun s => if s = "J" then some [("description", "pkg")] else none)
    ⟨"tool-2.0.0.zip", true, [], 9, none, some [("package.json", "J")], true⟩
    [("package.json", "J")] "J" [("description", "pkg")] "pkg" emptyRec
    rfl rfl rfl rfl rfl rfl

/-- C4 (corrected): a decode failure between a field's marker pair is NOT
swallowed: `scan_esp_firmware` raises, the field and all later fields stay
unset, and the exception aborts the whole scan; only an absent marker pair
is a silent per-field omission. -/
theorem decode_error_claim
    (loads : String → Option (List (String × String))) (hash : List Nat → String)
    (e : DirEntry) (rest : List DirEntry) (sp : List Nat) (g1 g2 : List Char) (db : Rec)
    (hsearch : pairSearch NAME_OPEN NAME_CLOSE e.content = some sp)
    (hdec : asciiDecode sp = none)
    (hf : e.isFile = true)
    (hext : (splitextChars e.name.data).2 = ".bin".data)
    (hfw : fwNameSearch (splitextChars e.name.data).1 = some (g1, g2)) :
    (scan_esp_firmware e db).2 = true ∧
    (scan_esp_firmware e db).1.name = db.name ∧
    (scan_esp_firmware e db).1.version = db.version ∧
    (scan_esp_firmware e db).1.brand = db.brand ∧
    (scan_firmwares loads hash (e :: rest)).2 = true ∧
    (∀ n, n ≠ e.name → dbFind (scan_firmwares loads hash (e :: rest)).1 n = none) := by
  have hesp : ∀ d : Rec,
      scan_esp_firmware e d = ({ d with type := some "esp8266" }, true) := by
    intro d
    simp only [scan_esp_firmware, hsearch, applyField, hdec]
  have hpe : processEntry loads hash e
      = some ({ initRec e.name with type := some "esp8266" }, true) := by
    rw [processEntry, if_pos (by simp [hf]), if_pos (Or.inl hext)]
    simp only [hfw, dispatchExtract, hext, if_pos, hesp (initRec e.name)]
  have habort := scan_abort_after loads hash e rest _ hpe
  refine ⟨by rw [hesp db], by rw [hesp db], by rw [hesp db], by rw [hesp db],
    habort.2, ?_⟩
  intro n hn
  rw [habort.1]
  exact dbFind_single_ne e.name n _ hn

/-- C4 counterexample: an image whose name markers bracket the
undecodable byte 255 while its version markers bracket the decodable
digit `1`: the claim promises the name field is silently omitted with no
exception and the version still extracted, but the code raises and the
version stays unset. -/
theorem decode_error_claim_counterexample :
    pairSearch NAME_OPEN NAME_CLOSE
      (NAME_OPEN ++ [255] ++ NAME_CLOSE ++ VERSION_OPEN ++ [49] ++ VERSION_CLOSE)
      = some [255] ∧
    asciiDecode [255] = none ∧
    pairSearch VERSION_OPEN VERSION_CLOSE
      (NAME_OPEN ++ [255] ++ NAME_CLOSE ++ VERSION_OPEN ++ [49] ++ VERSION_CLOSE)
      = some [49] ∧
    asciiDecode [49] = some "1" ∧
    (scan_esp_firmware ⟨"s-1.0.0.bin", true,
        NAME_OPEN ++ [255] ++ NAME_CLOSE ++ VERSION_OPEN ++ [49] ++ VERSION_CLOSE,
        1, none, none, true⟩ emptyRec).2 = true ∧
    (scan_esp_firmware ⟨"s-1.0.0.bin", true,
        NAME_OPEN ++ [255] ++ NAME_CLOSE ++ VERSION_OPEN ++ [49] ++ VERSION_CLOSE,
        1, none, none, true⟩ emptyRec).1.version = none := by
  refine ⟨?_, ?_, ?_, ?_, ?_, ?_⟩ <;> decide

/-- C4 witness: the amended behavior at the counterexample image. -/
theorem decode_error_claim_witness :
    (scan_esp_firmware ⟨"s-1.0.0.bin", true,
        NAME_OPEN ++ [255] ++ NAME_CLOSE ++ VERSION_OPEN ++ [49] ++ VERSION_CLOSE,
        1, none, none, true⟩ emptyRec).2 = true ∧
    (scan_firmwares (fun _ => none) (fun _ => "h")
      [⟨"s-1.0.0.bin", true,
        NAME_OPEN ++ [255] ++ NAME_CLOSE ++ VERSION_OPEN ++ [49] ++ VERSION_CLOSE,
        1, none, none, true⟩,
       ⟨"t-1.0.0.bin", true, [], 1, none, none, true⟩]).2 = true := by
  have h := decode_error_claim (fun _ => none) (fun _ => "h")
    ⟨"s-1.0.0.bin", true,
      NAME_OPEN ++ [255] ++ NAME_CLOSE ++ VERSION_OPEN ++ [49] ++ VERSION_CLOSE,
      1, none, none, true⟩
    [⟨"t-1.0.0.bin", true, [], 1, none, none, true⟩]
    [255] "s".data "1.0.0".data emptyRec
    (by decide) (by decide) rfl (by decide) (by decide)
  exact ⟨h.1, h.2.2.2.2.1⟩

/-- C5 (corrected): an I/O failure inside `file_md5` is uncaught in the
scanner loop, so it aborts the WHOLE scan, not just the failing file: no
later directory entry is processed. -/
theorem checksum_abort_claim
    (loads : String → Option (List (String × String))) (hash : List Nat → String)
    (e : DirEntry) (rest : List DirEntry) (g1 g2 : List Char)
    (hf : e.isFile = true)
    (hext : (splitextChars e.name.data).2 = ".zip".data)
    (hfw : fwNameSearch (splitextChars e.name.data).1 = some (g1, g2))
    (hzip : e.zipView = none)
    (hmd5 : e.md5Readable = false) :
    file_md5 hash e = Except.error () ∧
    (scan_firmwares loads hash (e :: rest)).2 = true ∧
    (∀ n, n ≠ e.name → dbFind (scan_firmwares loads hash (e :: rest)).1 n = none) := by
  have hpe := processEntry_invalid_zip loads hash e g1 g2 hf hext hfw hzip
  rw [hmd5] at hpe
  simp only [Bool.false_eq_true, if_false] at hpe
  have habort := scan_abort_after loads hash e rest _ hpe
  refine ⟨by rw [file_md5, if_neg (by simp [hmd5])], habort.2, ?_⟩
  intro n hn
  rw [habort.1]
  exact dbFind_single_ne e.name n _ hn

/-- C5 counterexample: two well-formed `.zip` entries, the first
unreadable at checksum time: the claim promises the scan continues with
the second entry, but the scan aborts and the second file gets no
record. -/
theorem checksum_abort_claim_counterexample :
    (scan_firmwares (fun _ => none) (fun _ => "h")
      [⟨"a-1.0.0.zip", true, [], 1, none, none, false⟩,
       ⟨"b-1.0.0.zip", true, [], 1, none, none, true⟩]).2 = true ∧
    dbFind (scan_firmwares (fun _ => none) (fun _ => "h")
      [⟨"a-1.0.0.zip", true, [], 1, none, none, false⟩,
       ⟨"b-1.0.0.zip", true, [], 1, none, none, true⟩]).1 "b-1.0.0.zip" = none := by
  refine ⟨?_, ?_⟩ <;> decide

/-- C5 witness: the amended behavior at the counterexample directory. -/
theorem checksum_abort_claim_witness :
    file_md5 (fun _ => "h") ⟨"a-1.0.0.zip", true, [], 1, none, none, false⟩
      = Except.error () ∧
    (scan_firmwares (fun _ => none) (fun _ => "h")
      [⟨"a-1.0.0.zip", true, [], 1, none, none, false⟩,
       ⟨"b-1.0.0.zip", true, [], 1, none, none, true⟩]).2 = true ∧
    dbFind (scan_firmwares (fun _ => none) (fun _ => "h")
      [⟨"a-1.0.0.zip", true, [], 1, none, none, false⟩,
       ⟨"b-1.0.0.zip", true, [], 1, none, none, true⟩]).1 "b-1.0.0.zip" = none := by
  have h := checksum_abort_claim (fun _ => none) (fun _ => "h")
    ⟨"a-1.0.0.zip", true, [], 1, none, none, false⟩
    [⟨"b-1.0.0.zip", true, [], 1, none, none, true⟩]
    "a".data "1.0.0".data rfl (by decide) (by decide) rfl rfl
  exact ⟨h.1, h.2.1, h.2.2 "b-1.0.0.zip" (by decide)⟩

/-- C6 (corrected): a record exists exactly for regular files with a
recognized extension whose base name CONTAINS a hyphen followed by a
dotted three-component digit version (the code applies the convention
with a substring search, so text may follow the version); the whole-name
convention of the claim is strictly stronger. -/
theorem scan_gate_claim
    (loads : String → Option (List (String × String))) (hash : List Nat → String)
    (entries : List DirEntry)
    (hnd : (entries.map (fun x => x.name)).Nodup) :
    (∀ n r, dbFind (scan_firmwares loads hash entries).1 n = some r →
      ∃ e ∈ entries, e.name = n ∧ e.isFile = true ∧
        ((splitextChars e.name.data).2 = ".bin".data ∨
          (splitextChars e.name.data).2 = ".zip".data) ∧
        (fwNameSearch (splitextChars e.name.data).1).isSome = true) ∧
    (∀ e ∈ entries,
      ¬(e.isFile = true ∧
        ((splitextChars e.name.data).2 = ".bin".data ∨
          (splitextChars e.name.data).2 = ".zip".data) ∧
        (fwNameSearch (splitextChars e.name.data).1).isSome = true) →
      dbFind (scan_firmwares loads hash entries).1 e.name = none) := by
  constructor
  · intro n r h
    rcases keys_from_entries loads hash entries ([], false) n r h with h0 | ⟨e, he, hn, b, hb⟩
    · cases h0
    · exact ⟨e, he, hn, processEntry_some_gates loads hash e _ hb⟩
  · intro e he hgate
    refine no_record_for_name loads hash entries ([], false) e.name ?_ rfl
    intro e' he' hn'
    have hee : e' = e := List.inj_on_of_nodup_map hnd he' he hn'
    subst hee
    cases hpe : processEntry loads hash e' with
    | none => rfl
    | some p => exact absurd (processEntry_some_gates loads hash e' p hpe) hgate

/-- C6 counterexample: `tool-1.2.3b.bin` — its base name does not match
the convention `<name>-<major>.<minor>.<patch>` as a whole (the `b` after
the patch is left over), yet the scan emits a record for it. -/
theorem scan_gate_claim_counterexample :
    specConvention "tool-1.2.3b".data = false ∧
    (dbFind (scan_firmwares (fun _ => none) (fun _ => "h")
      [⟨"tool-1.2.3b.bin", true, [], 4, none, none, true⟩]).1
      "tool-1.2.3b.bin").isSome = true := by
  refine ⟨?_, ?_⟩ <;> decide

/-- C6 witness: both directions of the amended gate, concretely: a
candidate without a recognized extension gets no record, and every key of
a scan comes from a gated entry. -/
theorem scan_gate_claim_witness :
    dbFind (scan_firmwares (fun _ => none) (fun _ => "h")
      [⟨"README.md", true, [], 4, none, none, true⟩]).1 "README.md" = none ∧
    ∃ e ∈ [(⟨"a-1.0.0.zip", true, [], 1, none, none, true⟩ : DirEntry)],
      e.name = "a-1.0.0.zip" ∧ e.isFile = true ∧
      ((splitextChars e.name.data).2 = ".bin".data ∨
        (splitextChars e.name.data).2 = ".zip".data) ∧
      (fwNameSearch (splitextChars e.name.data).1).isSome = true := by
  constructor
  · exact (scan_gate_claim (fun _ => none) (fun _ => "h")
      [⟨"README.md", true, [], 4, none, none, true⟩] (by decide)).2
      ⟨"README.md", true, [], 4, none, none, true⟩ (by simp) (by decide)
  · exact (scan_gate_claim (fun _ => none) (fun _ => "h")
      [⟨"a-1.0.0.zip", true, [], 1, none, none, true⟩] (by decide)).1
      "a-1.0.0.zip"
      ⟨some "a-1.0.0.zip", some "a", none, some "1.0.0", none, none, none,
        some (sizeof_fmt ((1 : Nat) : ℚ) "B"), some "h"⟩ (by rfl)

/-- C7: a gated `.zip` file that is not a valid zip container still gets
a record, holding exactly the filename-derived and stat-derived fields —
filename, fallback name, filename_version, human size, checksum — with
type, version, brand and description unset, and the entry itself raises
no exception. -/
theorem invalid_zip_record_claim
    (loads : String → Option (List (String × String))) (hash : List Nat → String)
    (entries : List DirEntry) (e : DirEntry) (g1 g2 : List Char)
    (hnd : (entries.map (fun x => x.name)).Nodup)
    (hmem : e ∈ entries)
    (hf : e.isFile = true)
    (hext : (splitextChars e.name.data).2 = ".zip".data)
    (hfw : fwNameSearch (splitextChars e.name.data).1 = some (g1, g2))
    (hzip : e.zipView = none)
    (hmd5 : e.md5Readable = true)
    (hok : (scan_firmwares loads hash entries).2 = false) :
    dbFind (scan_firmwares loads hash entries).1 e.name = some
      ⟨some e.name, some (String.mk g1), none, some (String.mk g2), none, none, none,
        some (sizeof_fmt (e.size : ℚ) "B"), some (hash e.content)⟩ ∧
    processEntry loads hash e = some
      (⟨some e.name, some (String.mk g1), none, some (String.mk g2), none, none, none,
        some (sizeof_fmt (e.size : ℚ) "B"), some (hash e.content)⟩, false) := by
  have hpe := processEntry_invalid_zip loads hash e g1 g2 hf hext hfw hzip
  rw [hmd5] at hpe
  simp only [if_true] at hpe
  have hdef : scan_firmwares loads hash entries
      = List.foldl (scanStep loads hash) ([], false) entries := rfl
  have hrec := record_of_entry loads hash entries ([], false) e hnd hmem rfl
    (by rw [← hdef]; exact hok)
  rw [hpe, Option.map_some'] at hrec
  rw [hdef]
  exact ⟨hrec, hpe⟩

/-- C7 witness: a text file renamed to `a-1.0.0.zip`. -/
theorem invalid_zip_record_claim_witness :
    dbFind (scan_firmwares (fun _ => none) (fun _ => "h")
      [⟨"a-1.0.0.zip", true, [7], 1, none, none, true⟩]).1 "a-1.0.0.zip" = some
      ⟨some "a-1.0.0.zip", some (String.mk "a".data), none,
        some (String.mk "1.0.0".data), none, none, none,
        some (sizeof_fmt ((1 : Nat) : ℚ) "B"), some "h"⟩ := by
  exact (invalid_zip_record_claim (fun _ => none) (fun _ => "h")
    [⟨"a-1.0.0.zip", true, [7], 1, none, none, true⟩]
    ⟨"a-1.0.0.zip", true, [7], 1, none, none, true⟩
    "a".data "1.0.0".data (by decide) (by simp) rfl (by decide) (by decide)
    rfl rfl (by decide)).1

/-- C8: in a completed scan, every emitted record carries the
filename-captured version verbatim in `filename_version` (the extractor
never overwrites it), and its `name` is the extractor's value when the
extractor set one, else the filename-captured base name. -/
theorem filename_version_frame_claim
    (loads : String → Option (List (String × String))) (hash : List Nat → String)
    (entries : List DirEntry)
    (hok : (scan_firmwares loads hash entries).2 = false) :
    ∀ n r, dbFind (scan_firmwares loads hash entries).1 n = some r →
      ∃ e ∈ entries, e.name = n ∧ ∃ g1 g2 x,
        fwNameSearch (splitextChars e.name.data).1 = some (g1, g2) ∧
        dispatchExtract loads e (splitextChars e.name.data).2 (initRec e.name)
          = (x, false) ∧
        r.filename_version = some (String.mk g2) ∧
        r.name = (if x.name.isSome then x.name else some (String.mk g1)) := by
  intro n r h
  rcases keys_from_entries loads hash entries ([], false) n r h with h0 | ⟨e, he, hn, b, hb⟩
  · cases h0
  · cases b with
    | true =>
      have habort := abort_entry_final loads hash entries ([], false) e r he hb
      have hdef : scan_firmwares loads hash entries
          = List.foldl (scanStep loads hash) ([], false) entries := rfl
      rw [hdef, habort] at hok
      cases hok
    | false =>
      obtain ⟨g1, g2, x, h1, h2, h3, h4, h5, h6⟩ := processEntry_ok_inv loads hash e r hb
      exact ⟨e, he, hn, g1, g2, x, h1, h2, h3, h4⟩

/-- C8 witness: the invalid-zip entry — the extractor sets no name, so
the fallback applies and `filename_version` is the captured `1.0.0`. -/
theorem filename_version_frame_claim_witness :
    ∃ e ∈ [(⟨"a-1.0.0.zip", true, [7], 1, none, none, true⟩ : DirEntry)],
      e.name = "a-1.0.0.zip" ∧ ∃ g1 g2 x,
        fwNameSearch (splitextChars e.name.data).1 = some (g1, g2) ∧
        dispatchExtract (fun _ => none) e (splitextChars e.name.data).2 (initRec e.name)
          = (x, false) ∧
        (⟨some "a-1.0.0.zip", some (String.mk "a".data), none,
          some (String.mk "1.0.0".data), none, none, none,
          some (sizeof_fmt ((1 : Nat) : ℚ) "B"), some "h"⟩ : Rec).filename_version
          = some (String.mk g2) ∧
        (⟨some "a-1.0.0.zip", some (String.mk "a".data), none,
          some (String.mk "1.0.0".data), none, none, none,
          some (sizeof_fmt ((1 : Nat) : ℚ) "B"), some "h"⟩ : Rec).name
          = (if x.name.isSome then x.name else some (String.mk g1)) := by
  exact filename_version_frame_claim (fun _ => none) (fun _ => "h")
    [⟨"a-1.0.0.zip", true, [7], 1, none, none, true⟩] (by decide)
    "a-1.0.0.zip"
    ⟨some "a-1.0.0.zip", some (String.mk "a".data), none,
      some (String.mk "1.0.0".data), none, none, none,
      some (sizeof_fmt ((1 : Nat) : ℚ) "B"), some "h"⟩ (by rfl)

/-- C3: for a native image whose bytes decompose around each marker pair
with a nonempty, newline-free, uniquely-delimited, decodable span,
`scan_esp_firmware` sets `name`, `version` and `brand` to exactly the
decoded text strictly between the corresponding markers; and the fields
are independent: with the name and brand pairs absent, the version is
still extracted and the other fields are untouched. -/
theorem marker_extraction_claim (e : DirEntry) (db : Rec) :
    (∀ (pn sn qn pv sv qv pb sb qb : List Nat) (s1 s2 s3 : String),
      e.content = pn ++ (NAME_OPEN ++ (sn ++ (NAME_CLOSE ++ qn))) →
      e.content = pv ++ (VERSION_OPEN ++ (sv ++ (VERSION_CLOSE ++ qv))) →
      e.content = pb ++ (BRAND_OPEN ++ (sb ++ (BRAND_CLOSE ++ qb))) →
      sn ≠ [] → sv ≠ [] → sb ≠ [] →
      (∀ b ∈ sn, (b != 10) = true) →
      (∀ b ∈ sv, (b != 10) = true) →
      (∀ b ∈ sb, (b != 10) = true) →
      (∀ i, i < pn.length → matchesAt e.content NAME_OPEN i = false) →
      (∀ i, i < e.content.length → matchesAt e.content NAME_CLOSE i = true →
        i = pn.length + (NAME_OPEN.length + sn.length)) →
      (∀ i, i < pv.length → matchesAt e.content VERSION_OPEN i = false) →
      (∀ i, i < e.content.length → matchesAt e.content VERSION_CLOSE i = true →
        i = pv.length + (VERSION_OPEN.length + sv.length)) →
      (∀ i, i < pb.length → matchesAt e.content BRAND_OPEN i = false) →
      (∀ i, i < e.content.length → matchesAt e.content BRAND_CLOSE i = true →
        i = pb.length + (BRAND_OPEN.length + sb.length)) →
      asciiDecode sn = some s1 → asciiDecode sv = some s2 →
      asciiDecode sb = some s3 →
      ((scan_esp_firmware e db).2 = false ∧
       (scan_esp_firmware e db).1.name = some s1 ∧
       (scan_esp_firmware e db).1.version = some s2 ∧
       (scan_esp_firmware e db).1.brand = some s3)) ∧
    (∀ (pv sv qv : List Nat) (s2 : String),
      pairSearch NAME_OPEN NAME_CLOSE e.content = none →
      pairSearch BRAND_OPEN BRAND_CLOSE e.content = none →
      e.content = pv ++ (VERSION_OPEN ++ (sv ++ (VERSION_CLOSE ++ qv))) →
      sv ≠ [] →
      (∀ b ∈ sv, (b != 10) = true) →
      (∀ i, i < pv.length → matchesAt e.content VERSION_OPEN i = false) →
      (∀ i, i < e.content.length → matchesAt e.content VERSION_CLOSE i = true →
        i = pv.length + (VERSION_OPEN.length + sv.length)) →
      asciiDecode sv = some s2 →
      ((scan_esp_firmware e db).2 = false ∧
       (scan_esp_firmware e db).1.version = some s2 ∧
       (scan_esp_firmware e db).1.name = db.name ∧
       (scan_esp_firmware e db).1.brand = db.brand)) := by
  constructor
  · intro pn sn qn pv sv qv pb sb qb s1 s2 s3 hdn hdv hdb hsn hsv hsb hn10 hv10 hb10
      hno hnc hvo hvc hbo hbc d1 d2 d3
    have h1 : pairSearch NAME_OPEN NAME_CLOSE e.content = some sn := by
      rw [hdn]
      exact pairSearch_decomp NAME_OPEN NAME_CLOSE pn sn qn (by decide) (by decide)
        hsn hn10 (fun i hi => hdn ▸ hno i hi)
        (fun i hi hm => hnc i (by rw [hdn]; exact hi) (hdn ▸ hm))
    have h2 : pairSearch VERSION_OPEN VERSION_CLOSE e.content = some sv := by
      rw [hdv]
      exact pairSearch_decomp VERSION_OPEN VERSION_CLOSE pv sv qv (by decide) (by decide)
        hsv hv10 (fun i hi => hdv ▸ hvo i hi)
        (fun i hi hm => hvc i (by rw [hdv]; exact hi) (hdv ▸ hm))
    have h3 : pairSearch BRAND_OPEN BRAND_CLOSE e.content = some sb := by
      rw [hdb]
      exact pairSearch_decomp BRAND_OPEN BRAND_CLOSE pb sb qb (by decide) (by decide)
        hsb hb10 (fun i hi => hdb ▸ hbo i hi)
        (fun i hi hm => hbc i (by rw [hdb]; exact hi) (hdb ▸ hm))
    exact scan_esp_all e db sn sv sb s1 s2 s3 h1 h2 h3 d1 d2 d3
  · intro pv sv qv s2 h1 h3 hdv hsv hv10 hvo hvc d2
    have h2 : pairSearch VERSION_OPEN VERSION_CLOSE e.content = some sv := by
      rw [hdv]
      exact pairSearch_decomp VERSION_OPEN VERSION_CLOSE pv sv qv (by decide) (by decide)
        hsv hv10 (fun i hi => hdv ▸ hvo i hi)
        (fun i hi hm => hvc i (by rw [hdv]; exact hi) (hdv ▸ hm))
    exact scan_esp_version_only e db sv s2 h1 h2 h3 d2

/-- C3 witness: an image carrying name `FW`, version `1`, brand `A`, and
an image carrying only a version marker pair around `9`. -/
theorem marker_extraction_claim_witness :
    ((scan_esp_firmware ⟨"s-1.0.0.bin", true,
        [0xbf, 0x84, 0xe4, 0x13, 0x54, 70, 87, 0x93, 0x44, 0x6b, 0xa7, 0x75,
         0x6a, 0x3f, 0x3e, 0x0e, 0xe1, 49, 0xb0, 0x30, 0x48, 0xd4, 0x1a,
         0xfb, 0x2a, 0xf5, 0x68, 0xc0, 65, 0x6e, 0x2f, 0x0f, 0xeb, 0x2d],
        1, none, none, true⟩ emptyRec).2 = false ∧
     (scan_esp_firmware ⟨"s-1.0.0.bin", true,
        [0xbf, 0x84, 0xe4, 0x13, 0x54, 70, 87, 0x93, 0x44, 0x6b, 0xa7, 0x75,
         0x6a, 0x3f, 0x3e, 0x0e, 0xe1, 49, 0xb0, 0x30, 0x48, 0xd4, 0x1a,
         0xfb, 0x2a, 0xf5, 0x68, 0xc0, 65, 0x6e, 0x2f, 0x0f, 0xeb, 0x2d],
        1, none, none, true⟩ emptyRec).1.name = some "FW" ∧
     (scan_esp_firmware ⟨"s-1.0.0.bin", true,
        [0xbf, 0x84, 0xe4, 0x13, 0x54, 70, 87, 0x93, 0x44, 0x6b, 0xa7, 0x75,
         0x6a, 0x3f, 0x3e, 0x0e, 0xe1, 49, 0xb0, 0x30, 0x48, 0xd4, 0x1a,
         0xfb, 0x2a, 0xf5, 0x68, 0xc0, 65, 0x6e, 0x2f, 0x0f, 0xeb, 0x2d],
        1, none, none, true⟩ emptyRec).1.version = some "1" ∧
     (scan_esp_firmware ⟨"s-1.0.0.bin", true,
        [0xbf, 0x84, 0xe4, 0x13, 0x54, 70, 87, 0x93, 0x44, 0x6b, 0xa7, 0x75,
         0x6a, 0x3f, 0x3e, 0x0e, 0xe1, 49, 0xb0, 0x30, 0x48, 0xd4, 0x1a,
         0xfb, 0x2a, 0xf5, 0x68, 0xc0, 65, 0x6e, 0x2f, 0x0f, 0xeb, 0x2d],
        1, none, none, true⟩ emptyRec).1.brand = some "A") ∧
    (scan_esp_firmware ⟨"t-1.0.0.bin", true,
        [0x6a, 0x3f, 0x3e, 0x0e, 0xe1, 57, 0xb0, 0x30, 0x48, 0xd4, 0x1a],
        1, none, none, true⟩ emptyRec).1.version = some "9" := by
  constructor
  · exact (marker_extraction_claim ⟨"s-1.0.0.bin", true,
      [0xbf, 0x84, 0xe4, 0x13, 0x54, 70, 87, 0x93, 0x44, 0x6b, 0xa7, 0x75,
       0x6a, 0x3f, 0x3e, 0x0e, 0xe1, 49, 0xb0, 0x30, 0x48, 0xd4, 0x1a,
       0xfb, 0x2a, 0xf5, 0x68, 0xc0, 65, 0x6e, 0x2f, 0x0f, 0xeb, 0x2d],
      1, none, none, true⟩ emptyRec).1
      [] [70, 87]
      [0x6a, 0x3f, 0x3e, 0x0e, 0xe1, 49, 0xb0, 0x30, 0x48, 0xd4, 0x1a,
       0xfb, 0x2a, 0xf5, 0x68, 0xc0, 65, 0x6e, 0x2f, 0x0f, 0xeb, 0x2d]
      [0xbf, 0x84, 0xe4, 0x13, 0x54, 70, 87, 0x93, 0x44, 0x6b, 0xa7, 0x75]
      [49]
      [0xfb, 0x2a, 0xf5, 0x68, 0xc0, 65, 0x6e, 0x2f, 0x0f, 0xeb, 0x2d]
      [0xbf, 0x84, 0xe4, 0x13, 0x54, 70, 87, 0x93, 0x44, 0x6b, 0xa7, 0x75,
       0x6a, 0x3f, 0x3e, 0x0e, 0xe1, 49, 0xb0, 0x30, 0x48, 0xd4, 0x1a]
      [65] []
      "FW" "1" "A"
      (by decide) (by decide) (by decide) (by decide) (by decide) (by decide)
      (by decide) (by decide) (by decide) (by decide) (by decide) (by decide)
      (by decide) (by decide) (by decide) (by decide) (by decide) (by decide)
  · exact ((marker_extraction_claim ⟨"t-1.0.0.bin", true,
      [0x6a, 0x3f, 0x3e, 0x0e, 0xe1, 57, 0xb0, 0x30, 0x48, 0xd4, 0x1a],
      1, none, none, true⟩ emptyRec).2
      [] [57] [] "9"
      (by decide) (by decide) (by decide) (by decide) (by decide) (by decide)
      (by decide) (by decide)).2.1

/-- `unitIndexSpec` when the ladder scan finds an index. -/
theorem unitIndexSpec_eq_some (num : ℚ) (k : ℕ)
    (hf : (List.range 8).find? (unitPred num) = some k) :
    unitIndexSpec num = k := by
  rw [unitIndexSpec, hf, Option.getD_some]

/-- `unitIndexSpec` when no ladder index is small enough. -/
theorem unitIndexSpec_eq_none (num : ℚ)
    (hf : (List.range 8).find? (unitPred num) = none) :
    unitIndexSpec num = 8 := by
  rw [unitIndexSpec, hf, Option.getD_none]

/-- C9: `sizeof_fmt` is total and deterministic over exact arithmetic on
byte counts; its output is the value divided by 1024 once per unit step,
formatted to one decimal, followed by the unit and `B`; the chosen unit
index is the first at which the scaled magnitude is below 1024, the ladder
degenerates to `Y` past `Z` (index 8), and the unit is always one of the
nine symbols. -/
theorem sizeof_fmt_claim (n : ℕ) :
    sizeof_fmt (n : ℚ) "B"
      = fmtOneDec ((n : ℚ) / 1024 ^ unitIndexSpec (n : ℚ))
          ++ unitSymb (unitIndexSpec (n : ℚ)) ++ "B" ∧
    unitIndexSpec (n : ℚ) ≤ 8 ∧
    (∀ k, k < unitIndexSpec (n : ℚ) → ¬(|(n : ℚ) / 1024 ^ k| < 1024)) ∧
    (unitIndexSpec (n : ℚ) < 8 → |(n : ℚ) / 1024 ^ unitIndexSpec (n : ℚ)| < 1024) ∧
    unitSymb (unitIndexSpec (n : ℚ)) ∈ ["", "K", "M", "G", "T", "P", "E", "Z", "Y"] := by
  have hidx : auxIdx sizeofUnits (n : ℚ) = unitIndexSpec (n : ℚ) := by
    rw [auxIdx_eq_find]
    have h8 : sizeofUnits.length = 8 := rfl
    rw [h8, unitIndexSpec]
  refine ⟨?_, ?_, ?_, ?_, unitSymb_mem _⟩
  · rw [sizeof_fmt, sizeof_fmt_aux_eq, hidx, getD_units_eq]
  · cases hf : (List.range 8).find? (unitPred (n : ℚ)) with
    | some k =>
      rw [unitIndexSpec_eq_some _ _ hf]
      have := List.mem_range.mp (List.mem_of_find?_eq_some hf)
      omega
    | none => rw [unitIndexSpec_eq_none _ hf]
  · intro k hk
    cases hf : (List.range 8).find? (unitPred (n : ℚ)) with
    | some m =>
      rw [unitIndexSpec_eq_some _ _ hf] at hk
      have := (find_range_first 8 _ m hf).2 k hk
      simpa [unitPred] using this
    | none =>
      rw [unitIndexSpec_eq_none _ hf] at hk
      have := find_range_none 8 _ hf k hk
      simpa [unitPred] using this
  · intro hlt
    cases hf : (List.range 8).find? (unitPred (n : ℚ)) with
    | some m =>
      rw [unitIndexSpec_eq_some _ _ hf]
      have := (find_range_first 8 _ m hf).1
      simpa [unitPred] using this
    | none =>
      rw [unitIndexSpec_eq_none _ hf] at hlt
      omega

end Homie
